import Mathlib

set_option maxHeartbeats 1000000

/- Verification development for the ELF64 inspection tool (main.go of
   color-readelf).  The decoding core is embedded shallowly: an os.File is a
   list of bytes together with a read position, binary.Read is modelled by an
   explicit read of the record size followed by a little-endian field-by-field
   decode, and Go runtime panics (index out of range, slice bounds out of
   range) are modelled as a distinguished error value, since they abort the
   program without producing any result. -/

/-- Failure vocabulary of the decode pipeline.  The first three constructors
are the failure taxonomy of the design (TruncatedInput, SeekFailure,
InvalidStringTableIndex); runtimePanic models a Go runtime panic such as an
index-out-of-range or slice-bounds violation, which crashes the program
without returning any error value or partial result. -/
inductive ElfError where
  | truncatedInput
  | seekFailure
  | invalidStringTableIndex
  | runtimePanic
  deriving DecidableEq

/-- A seekable byte source, modelling os.File: the underlying bytes and the
current read position.  Bytes are Nat values below 256. -/
structure GoFile where
  data : List Nat
  pos : Nat
  deriving DecidableEq

/-- Models file.Seek(int64(offset), 0) with the returned error ignored, as
everywhere in main.go.  A uint64 offset at or above 2^63 becomes a negative
int64, Seek reports an error, and the position is left unchanged; otherwise
the position becomes the offset (seeking past the end is allowed). -/
def goSeek (f : GoFile) (offset : Nat) : GoFile :=
  if offset < 9223372036854775808 then { f with pos := offset } else f

/-- Models the io.ReadFull step inside binary.Read: read n bytes from the
current position.  On success the n bytes are returned; when fewer than n
bytes remain the read fails (io.EOF or io.ErrUnexpectedEOF) and binary.Read
leaves its destination untouched.  The position advances past the bytes
actually consumed (all remaining bytes on a short read, none at EOF). -/
def readFull (f : GoFile) (n : Nat) : Option (List Nat) × GoFile :=
  let f1 : GoFile := { f with pos := max f.pos (min (f.pos + n) f.data.length) }
  if n ≤ f.data.length - f.pos then (some ((f.data.drop f.pos).take n), f1)
  else (none, f1)

/-- Little-endian value of a list of bytes, as read by binary.LittleEndian. -/
def fromLEBytes : List Nat → Nat
  | [] => 0
  | b :: rest => b + 256 * fromLEBytes rest

/-- Little-endian encoding of a value into the given number of bytes. -/
def toLEBytes : Nat → Nat → List Nat
  | 0, _ => []
  | k + 1, v => v % 256 :: toLEBytes k (v / 256)

/-- The Elf64Ehdr struct of main.go.  Ident is the 16-byte identification
block; the remaining fields are unsigned machine integers (Type and Machine
uint16, Version uint32, Entry, Phoff and Shoff uint64, Flags uint32, the six
remaining fields uint16), held here as Nat. -/
structure Elf64Ehdr where
  Ident : List Nat
  Type' : Nat
  Machine : Nat
  Version : Nat
  Entry : Nat
  Phoff : Nat
  Shoff : Nat
  Flags : Nat
  Ehsize : Nat
  Phentsize : Nat
  Phnum : Nat
  Shentsize : Nat
  Shnum : Nat
  Shstrndx : Nat
  deriving DecidableEq

/-- The Elf64Phdr struct of main.go (Type and Flags uint32, the six other
fields uint64). -/
structure Elf64Phdr where
  Type' : Nat
  Flags : Nat
  Offset : Nat
  Vaddr : Nat
  Paddr : Nat
  Filesz : Nat
  Memsz : Nat
  Align : Nat
  deriving DecidableEq

/-- The Elf64Shdr struct of main.go (Name, Type, Link and Info uint32, the
six other fields uint64). -/
structure Elf64Shdr where
  Name : Nat
  Type' : Nat
  Flags : Nat
  Addr : Nat
  Offset : Nat
  Size : Nat
  Link : Nat
  Info : Nat
  Addralign : Nat
  Entsize : Nat
  deriving DecidableEq

/-- The Elf64ShdrWithName struct of main.go: a section header whose Name
field is the resolved text name.  A Go string is a byte string, so the name
is kept as a list of bytes. -/
structure Elf64ShdrWithName where
  Name : List Nat
  Type' : Nat
  Flags : Nat
  Addr : Nat
  Offset : Nat
  Size : Nat
  Link : Nat
  Info : Nat
  Addralign : Nat
  Entsize : Nat
  deriving DecidableEq

/-- Field-by-field little-endian decode of a 64-byte Elf64Ehdr buffer, in the
declared field order (16-byte ident, then 2,2,4,8,8,8,4,2,2,2,2,2,2 bytes),
as binary.Read performs it. -/
def decodeEhdr (b : List Nat) : Elf64Ehdr :=
  { Ident := b.take 16
    Type' := fromLEBytes ((b.drop 16).take 2)
    Machine := fromLEBytes ((b.drop 18).take 2)
    Version := fromLEBytes ((b.drop 20).take 4)
    Entry := fromLEBytes ((b.drop 24).take 8)
    Phoff := fromLEBytes ((b.drop 32).take 8)
    Shoff := fromLEBytes ((b.drop 40).take 8)
    Flags := fromLEBytes ((b.drop 48).take 4)
    Ehsize := fromLEBytes ((b.drop 52).take 2)
    Phentsize := fromLEBytes ((b.drop 54).take 2)
    Phnum := fromLEBytes ((b.drop 56).take 2)
    Shentsize := fromLEBytes ((b.drop 58).take 2)
    Shnum := fromLEBytes ((b.drop 60).take 2)
    Shstrndx := fromLEBytes ((b.drop 62).take 2) }

/-- Field-by-field little-endian decode of a 56-byte Elf64Phdr record, in the
declared field order (4,4,8,8,8,8,8,8 bytes). -/
def decodePhdr (b : List Nat) : Elf64Phdr :=
  { Type' := fromLEBytes (b.take 4)
    Flags := fromLEBytes ((b.drop 4).take 4)
    Offset := fromLEBytes ((b.drop 8).take 8)
    Vaddr := fromLEBytes ((b.drop 16).take 8)
    Paddr := fromLEBytes ((b.drop 24).take 8)
    Filesz := fromLEBytes ((b.drop 32).take 8)
    Memsz := fromLEBytes ((b.drop 40).take 8)
    Align := fromLEBytes ((b.drop 48).take 8) }

/-- Field-by-field little-endian decode of a 64-byte Elf64Shdr record, in the
declared field order (4,4,8,8,8,8,4,4,8,8 bytes). -/
def decodeShdr (b : List Nat) : Elf64Shdr :=
  { Name := fromLEBytes (b.take 4)
    Type' := fromLEBytes ((b.drop 4).take 4)
    Flags := fromLEBytes ((b.drop 8).take 8)
    Addr := fromLEBytes ((b.drop 16).take 8)
    Offset := fromLEBytes ((b.drop 24).take 8)
    Size := fromLEBytes ((b.drop 32).take 8)
    Link := fromLEBytes ((b.drop 40).take 4)
    Info := fromLEBytes ((b.drop 44).take 4)
    Addralign := fromLEBytes ((b.drop 48).take 8)
    Entsize := fromLEBytes ((b.drop 56).take 8) }

/-- The zero value of Elf64Phdr: what a record declared as var phdr Elf64Phdr
holds when binary.Read fails and its error is ignored. -/
def zeroPhdr : Elf64Phdr :=
  { Type' := 0, Flags := 0, Offset := 0, Vaddr := 0, Paddr := 0, Filesz := 0
    Memsz := 0, Align := 0 }

/-- The zero value of Elf64Shdr: what a slot of make([]Elf64Shdr, n) holds
when the binary.Read into it fails and its error is ignored. -/
def zeroShdr : Elf64Shdr :=
  { Name := 0, Type' := 0, Flags := 0, Addr := 0, Offset := 0, Size := 0
    Link := 0, Info := 0, Addralign := 0, Entsize := 0 }

/-- Embedding of ReadELFHeader(file): binary.Read of a 64-byte Elf64Ehdr from
the current position; the error of binary.Read is checked, and on failure nil
and the error are returned (modelled as the TruncatedInput failure, since a
short read is the only error this byte source produces). -/
def ReadELFHeader (f : GoFile) : Except ElfError Elf64Ehdr × GoFile :=
  let r := readFull f 64
  match r.1 with
  | some bs => (Except.ok (decodeEhdr bs), r.2)
  | none => (Except.error ElfError.truncatedInput, r.2)

/-- The program-header read loop shared by PrintProgramHeaders and
JSONOutputProgramHeaders: n sequential binary.Read calls of 56-byte Elf64Phdr
records with the returned error ignored, so a failed read leaves the freshly
declared record at its zero value and the loop continues. -/
def readPhdrsLoop : Nat → GoFile → List Elf64Phdr × GoFile
  | 0, f => ([], f)
  | n + 1, f =>
    let r0 := readFull f 56
    let rest := readPhdrsLoop n r0.2
    match r0.1 with
    | some bs => (decodePhdr bs :: rest.1, rest.2)
    | none => (zeroPhdr :: rest.1, rest.2)

/-- Embedding of JSONOutputProgramHeaders(file, ehdr), restricted to the
record sequence it serialises: seek to Phoff (error ignored), then read Phnum
records, appending every record whether or not its read succeeded. -/
def JSONOutputProgramHeaders (f : GoFile) (e : Elf64Ehdr) : List Elf64Phdr :=
  (readPhdrsLoop e.Phnum (goSeek f e.Phoff)).1

/-- Embedding of PrintProgramHeaders(file, ehdr), restricted to the record
sequence it prints; the read loop is identical to JSONOutputProgramHeaders. -/
def PrintProgramHeaders (f : GoFile) (e : Elf64Ehdr) : List Elf64Phdr :=
  (readPhdrsLoop e.Phnum (goSeek f e.Phoff)).1

/-- Embedding of dumpStringTable(file, offset, size): seek to int64(offset)
(error ignored), allocate a zero-filled buffer with make([]byte, size),
binary.Read into it with the error ignored, and return the buffer.  On a
short read the decode step of binary.Read never runs, so the zero-filled
buffer is returned unchanged.  The size argument is a uint64: when it is at
or above 2^63 it is not representable by an int and make([]byte, size)
panics at run time (Go spec, making slices), after the seek and before any
read. -/
def dumpStringTable (f : GoFile) (offset size : Nat) :
    Except ElfError (List Nat) × GoFile :=
  let f1 := goSeek f offset
  if size < 9223372036854775808 then
    let r := readFull f1 size
    match r.1 with
    | some bs => (Except.ok bs, r.2)
    | none => (Except.ok (List.replicate size 0), r.2)
  else
    (Except.error ElfError.runtimePanic, f1)

/-- Number of leading non-NUL bytes of a list: how far the getString loop
advances over a suffix of the table before hitting a NUL or the bound. -/
def scanCount : List Nat → Nat
  | [] => 0
  | b :: rest => if b = 0 then 0 else scanCount rest + 1

/-- Embedding of getString(data, index).  The loop
end := index; for end < uint32(len(data)) and data[end] != 0 do end++
is bounded by uint32(len(data)) = len(data) % 2^32, so end advances over the
leading non-NUL bytes of the slice of the table below that bound; the final
slice expression data[index:end] panics when its upper bound index (= end)
exceeds len(data) (the capacity of the buffer equals its length here). -/
def getString (data : List Nat) (index : Nat) : Except ElfError (List Nat) :=
  let w := data.length % 4294967296
  let e := if index < w then index + scanCount ((data.take w).drop index) else index
  if index ≤ e ∧ e ≤ data.length then Except.ok ((data.drop index).take (e - index))
  else Except.error ElfError.runtimePanic

/-- The section-header read loop of MakeSectionHeaderWithName: n sequential
binary.Read calls of 64-byte Elf64Shdr records into a zero-initialised slice,
with the returned error ignored, so a failed read leaves the slot zero. -/
def readShdrsLoop : Nat → GoFile → List Elf64Shdr × GoFile
  | 0, f => ([], f)
  | n + 1, f =>
    let r0 := readFull f 64
    let rest := readShdrsLoop n r0.2
    match r0.1 with
    | some bs => (decodeShdr bs :: rest.1, rest.2)
    | none => (zeroShdr :: rest.1, rest.2)

/-- The decode phase of MakeSectionHeaderWithName (its first loop): seek to
Shoff (error ignored) and read Shnum raw section-header records. -/
def decodeSectionHeaders (f : GoFile) (e : Elf64Ehdr) : List Elf64Shdr :=
  (readShdrsLoop e.Shnum (goSeek f e.Shoff)).1

/-- The name-resolution loop of MakeSectionHeaderWithName: for each raw
section header in order, resolve its Name index in the loaded string table
and copy the nine remaining fields unchanged.  A panic inside getString
aborts the whole loop with no result, which the error propagation models. -/
def resolveLoop (table : List Nat) : List Elf64Shdr → Except ElfError (List Elf64ShdrWithName)
  | [] => Except.ok []
  | s :: rest =>
    match getString table s.Name with
    | Except.error err => Except.error err
    | Except.ok nm =>
      match resolveLoop table rest with
      | Except.error err => Except.error err
      | Except.ok ws =>
        Except.ok ({ Name := nm, Type' := s.Type', Flags := s.Flags
                     Addr := s.Addr, Offset := s.Offset, Size := s.Size
                     Link := s.Link, Info := s.Info, Addralign := s.Addralign
                     Entsize := s.Entsize } :: ws)

/-- Embedding of MakeSectionHeaderWithName(file, ehdr): seek to Shoff, read
Shnum raw section headers (read errors ignored, failed slots left zero), then
evaluate shdrs[ehdr.Shstrndx] — which panics when Shstrndx is not below the
slice length Shnum — load the string table from that section (a panic inside
dumpStringTable propagates, aborting with no result), and resolve every Name
index against it in table order. -/
def MakeSectionHeaderWithName (f : GoFile) (e : Elf64Ehdr) :
    Except ElfError (List Elf64ShdrWithName) × GoFile :=
  let rs := readShdrsLoop e.Shnum (goSeek f e.Shoff)
  if h : e.Shstrndx < rs.1.length then
    let sec := rs.1.get ⟨e.Shstrndx, h⟩
    let dt := dumpStringTable rs.2 sec.Offset sec.Size
    match dt.1 with
    | Except.ok table => (resolveLoop table rs.1, dt.2)
    | Except.error err => (Except.error err, dt.2)
  else
    (Except.error ElfError.runtimePanic, rs.2)

/-- Pointwise agreement of the nine non-name fields between a resolved
section header and a raw section header. -/
def FieldsMatch (w : Elf64ShdrWithName) (s : Elf64Shdr) : Prop :=
  w.Type' = s.Type' ∧ w.Flags = s.Flags ∧ w.Addr = s.Addr ∧ w.Offset = s.Offset ∧
  w.Size = s.Size ∧ w.Link = s.Link ∧ w.Info = s.Info ∧
  w.Addralign = s.Addralign ∧ w.Entsize = s.Entsize

/-- Modelled from the spec: main.go contains no encoder for Elf64Ehdr; the
round-trip property of section 8 presupposes one ("if an encoder is added").
Following the declared layout, the 16-byte identification block is written
verbatim and every other field is written little-endian in the declared field
order with its declared width (2,2,4,8,8,8,4,2,2,2,2,2,2 bytes). -/
def encodeEhdr (e : Elf64Ehdr) : List Nat :=
  e.Ident ++ toLEBytes 2 e.Type' ++ toLEBytes 2 e.Machine ++
  toLEBytes 4 e.Version ++ toLEBytes 8 e.Entry ++ toLEBytes 8 e.Phoff ++
  toLEBytes 8 e.Shoff ++ toLEBytes 4 e.Flags ++ toLEBytes 2 e.Ehsize ++
  toLEBytes 2 e.Phentsize ++ toLEBytes 2 e.Phnum ++ toLEBytes 2 e.Shentsize ++
  toLEBytes 2 e.Shnum ++ toLEBytes 2 e.Shstrndx

/- Concrete inputs used by the witnesses and counterexamples below.  The
Elf64Ehdr constructor takes the fields in the declared order: Ident, Type,
Machine, Version, Entry, Phoff, Shoff, Flags, Ehsize, Phentsize, Phnum,
Shentsize, Shnum, Shstrndx. -/

/-- An empty byte source at position 0. -/
def fileC1 : GoFile := ⟨[], 0⟩

/-- A header with Shnum = 1 and Shstrndx = 1, so the string-table index is
not below the section-header count. -/
def ehdrC1 : Elf64Ehdr := ⟨[], 0, 0, 0, 0, 0, 0, 0, 0, 0, 0, 0, 1, 1⟩

/-- An empty byte source at position 0. -/
def fileC3 : GoFile := ⟨[], 0⟩

/-- A header with Phoff = 0 and Phnum = 1 over an empty source: the source is
56 bytes short of what one program-header record needs. -/
def ehdrC3 : Elf64Ehdr := ⟨[], 0, 0, 0, 0, 0, 0, 0, 0, 0, 1, 0, 0, 0⟩

/-- An empty byte source at position 0. -/
def fileC4 : GoFile := ⟨[], 0⟩

/-- A header with Shnum = 0 (and Shstrndx = 0). -/
def ehdrC4 : Elf64Ehdr := ⟨[], 0, 0, 0, 0, 0, 0, 0, 0, 0, 0, 0, 0, 0⟩

/-- A 64-byte all-zero source: one all-zero section header at offset 0. -/
def fileC6 : GoFile := ⟨List.replicate 64 0, 0⟩

/-- A header with Shoff = 0, Shnum = 1 and Shstrndx = 0: the single section
is its own string-table section, with Offset = 0 and Size = 0. -/
def ehdrC6 : Elf64Ehdr := ⟨[], 0, 0, 0, 0, 0, 0, 0, 0, 0, 0, 0, 1, 0⟩

/-- The resolved sections that binding names over fileC6 produces: a single
all-zero section whose resolved name is empty. -/
def wsC6 : List Elf64ShdrWithName := [⟨[], 0, 0, 0, 0, 0, 0, 0, 0, 0⟩]

/-- A 64-byte source holding the bytes 0, 1, ..., 63 at position 0. -/
def fileC8 : GoFile := ⟨List.range 64, 0⟩

/- Helper lemmas about the byte-source primitives. -/

lemma readFull_eq (f : GoFile) (n : Nat) :
    readFull f n =
      (if n ≤ f.data.length - f.pos then some ((f.data.drop f.pos).take n) else none,
       { f with pos := max f.pos (min (f.pos + n) f.data.length) }) := by
  unfold readFull
  split <;> simp_all

lemma readFull_fst (f : GoFile) (n : Nat) :
    (readFull f n).1 =
      if n ≤ f.data.length - f.pos then some ((f.data.drop f.pos).take n)
      else none := by
  rw [readFull_eq]

lemma readFull_snd (f : GoFile) (n : Nat) :
    (readFull f n).2 =
      { f with pos := max f.pos (min (f.pos + n) f.data.length) } := by
  rw [readFull_eq]

lemma readShdrsLoop_length (n : Nat) (f : GoFile) : ((readShdrsLoop n f).1).length = n := by
  induction n generalizing f with
  | zero => rfl
  | succ n ih =>
    simp only [readShdrsLoop]
    split <;> simp [ih]

lemma readPhdrsLoop_length (n : Nat) (f : GoFile) : ((readPhdrsLoop n f).1).length = n := by
  induction n generalizing f with
  | zero => rfl
  | succ n ih =>
    simp only [readPhdrsLoop]
    split <;> simp [ih]

/- Helper lemmas about scanCount, takeWhile and getString. -/

lemma scanCount_le_length (l : List Nat) : scanCount l ≤ l.length := by
  induction l with
  | nil => simp [scanCount]
  | cons b rest ih =>
    simp only [scanCount, List.length_cons]
    split <;> omega

lemma take_scanCount_eq_takeWhile (l : List Nat) :
    l.take (scanCount l) = l.takeWhile (fun b => b != 0) := by
  induction l with
  | nil => rfl
  | cons b rest ih =>
    by_cases hb : b = 0
    · simp [scanCount, List.takeWhile_cons, hb]
    · simp [scanCount, List.takeWhile_cons, hb, ih]

lemma takeWhile_nonzero_length_le (l : List Nat) :
    (l.takeWhile (fun b => b != 0)).length ≤ l.length := by
  rw [← take_scanCount_eq_takeWhile]
  simp [List.length_take]

lemma takeWhile_nonzero_mem (l : List Nat) (x : Nat)
    (hx : x ∈ l.takeWhile (fun b => b != 0)) : x ≠ 0 := by
  have h := List.mem_takeWhile_imp hx
  simpa using h

lemma takeWhile_nonzero_maximal (p : List Nat) :
    ∀ t : List Nat, (∀ x ∈ p, x ≠ 0) →
      p.length ≤ ((p ++ t).takeWhile (fun b => b != 0)).length := by
  induction p with
  | nil => intro t _; simp
  | cons a p' ih =>
    intro t hp
    have ha : a ≠ 0 := hp a (by simp)
    have hrec := ih t (fun x hx => hp x (by simp [hx]))
    simp only [List.cons_append, List.takeWhile_cons, List.length_cons]
    have hba : (a != 0) = true := by simpa using ha
    rw [hba]
    simp only [if_true, List.length_cons]
    omega

lemma takeWhile_nonzero_all (l : List Nat) (h : ∀ x ∈ l, x ≠ 0) :
    l.takeWhile (fun b => b != 0) = l := by
  induction l with
  | nil => rfl
  | cons a l' ih =>
    have ha : (a != 0) = true := by simpa using h a (by simp)
    simp only [List.takeWhile_cons, ha, if_true]
    rw [ih (fun x hx => h x (by simp [hx]))]

lemma getString_ok (data : List Nat) (index : Nat)
    (h1 : data.length < 4294967296) (h2 : index ≤ data.length) :
    getString data index =
      Except.ok ((data.drop index).takeWhile (fun b => b != 0)) := by
  simp only [getString]
  rw [Nat.mod_eq_of_lt h1, List.take_length]
  by_cases hlt : index < data.length
  · have hsc := scanCount_le_length (data.drop index)
    rw [List.length_drop] at hsc
    rw [if_pos hlt,
        if_pos (⟨Nat.le_add_right _ _, by omega⟩ :
          index ≤ index + scanCount (data.drop index) ∧
          index + scanCount (data.drop index) ≤ data.length)]
    rw [Nat.add_sub_cancel_left]
    rw [take_scanCount_eq_takeWhile]
  · have he : index = data.length := by omega
    rw [if_neg hlt, if_pos (⟨le_refl _, h2⟩ : index ≤ index ∧ index ≤ data.length)]
    subst he
    simp

lemma getString_at_length (data : List Nat) :
    getString data data.length = Except.ok [] := by
  simp only [getString]
  have hw : data.length % 4294967296 ≤ data.length := Nat.mod_le _ _
  rw [if_neg (by omega : ¬ data.length < data.length % 4294967296),
      if_pos (⟨le_refl _, le_refl _⟩ : data.length ≤ data.length ∧ data.length ≤ data.length)]
  simp

lemma getString_panic (data : List Nat) (index : Nat) (h : data.length < index) :
    getString data index = Except.error ElfError.runtimePanic := by
  simp only [getString]
  have hw : data.length % 4294967296 ≤ data.length := Nat.mod_le _ _
  rw [if_neg (by omega : ¬ index < data.length % 4294967296),
      if_neg (by omega : ¬ (index ≤ index ∧ index ≤ data.length))]

/- Helper lemmas about the little-endian codec. -/

lemma toLEBytes_fromLEBytes (l : List Nat) (h : ∀ x ∈ l, x < 256) :
    toLEBytes l.length (fromLEBytes l) = l := by
  induction l with
  | nil => rfl
  | cons b rest ih =>
    have hb : b < 256 := h b (by simp)
    simp only [List.length_cons, toLEBytes, fromLEBytes]
    congr 1
    · omega
    · have hd : (b + 256 * fromLEBytes rest) / 256 = fromLEBytes rest := by omega
      rw [hd]
      exact ih (fun x hx => h x (by simp [hx]))

lemma toLEBytes_chunk (l : List Nat) (j k : Nat) (h : ∀ x ∈ l, x < 256)
    (hjk : j + k ≤ l.length) :
    toLEBytes k (fromLEBytes ((l.drop j).take k)) = (l.drop j).take k := by
  have hlen : ((l.drop j).take k).length = k := by
    simp only [List.length_take, List.length_drop]
    omega
  have hmem : ∀ x ∈ (l.drop j).take k, x < 256 := by
    intro x hx
    exact h x (List.drop_subset j l (List.take_subset k (l.drop j) hx))
  calc toLEBytes k (fromLEBytes ((l.drop j).take k))
      = toLEBytes ((l.drop j).take k).length (fromLEBytes ((l.drop j).take k)) := by
        rw [hlen]
    _ = (l.drop j).take k := toLEBytes_fromLEBytes _ hmem

/- Helper lemma: characterisation of the program-header read loop by element
index.  The first failed read leaves the position at the end of the data, so
every record fully inside the data is decoded and every later record stays at
its zero value. -/

lemma readPhdrsLoop_getElem (n : Nat) :
    ∀ (d : List Nat) (p i : Nat), i < n →
      ((readPhdrsLoop n ⟨d, p⟩).1)[i]? =
        some (if p + (i + 1) * 56 ≤ d.length
              then decodePhdr ((d.drop (p + i * 56)).take 56) else zeroPhdr) := by
  induction n with
  | zero => intro d p i h; omega
  | succ n ih =>
    intro d p i hi
    simp only [readPhdrsLoop, readFull_eq]
    by_cases hc : 56 ≤ d.length - p
    · have hp56 : p + 56 ≤ d.length := by omega
      have hpos : max p (min (p + 56) d.length) = p + 56 := by omega
      rw [if_pos hc, hpos]
      cases i with
      | zero =>
        simp only [List.getElem?_cons_zero]
        rw [if_pos (by omega : p + (0 + 1) * 56 ≤ d.length)]
        norm_num
      | succ j =>
        simp only [List.getElem?_cons_succ]
        have hrec := ih d (p + 56) j (by omega)
        have e1 : p + 56 + (j + 1) * 56 = p + (j + 1 + 1) * 56 := by ring
        have e2 : p + 56 + j * 56 = p + (j + 1) * 56 := by ring
        rw [e1, e2] at hrec
        exact hrec
    · rw [if_neg hc]
      cases i with
      | zero =>
        simp only [List.getElem?_cons_zero]
        rw [if_neg (by omega : ¬ p + (0 + 1) * 56 ≤ d.length)]
      | succ j =>
        simp only [List.getElem?_cons_succ]
        have hrec := ih d (max p (min (p + 56) d.length)) j (by omega)
        rw [hrec]
        rw [if_neg (by omega : ¬ max p (min (p + 56) d.length) + (j + 1) * 56 ≤ d.length),
            if_neg (by omega : ¬ p + (j + 1 + 1) * 56 ≤ d.length)]

/- Helper lemmas about name resolution and MakeSectionHeaderWithName. -/

lemma resolveLoop_ok (table : List Nat) :
    ∀ (l : List Elf64Shdr) (ws : List Elf64ShdrWithName),
      resolveLoop table l = Except.ok ws → List.Forall₂ FieldsMatch ws l := by
  intro l
  induction l with
  | nil =>
    intro ws h
    simp only [resolveLoop] at h
    injection h with h2
    subst h2
    exact List.Forall₂.nil
  | cons s rest ih =>
    intro ws h
    simp only [resolveLoop] at h
    cases hg : getString table s.Name with
    | error err => rw [hg] at h; exact absurd h (by simp)
    | ok nm =>
      rw [hg] at h
      cases hr : resolveLoop table rest with
      | error err => rw [hr] at h; exact absurd h (by simp)
      | ok ws' =>
        rw [hr] at h
        injection h with h2
        subst h2
        exact List.Forall₂.cons ⟨rfl, rfl, rfl, rfl, rfl, rfl, rfl, rfl, rfl⟩ (ih ws' hr)

lemma make_panics_of_shstrndx_ge (f : GoFile) (e : Elf64Ehdr)
    (h : e.Shnum ≤ e.Shstrndx) :
    (MakeSectionHeaderWithName f e).1 = Except.error ElfError.runtimePanic := by
  simp only [MakeSectionHeaderWithName]
  rw [dif_neg (by rw [readShdrsLoop_length]; omega)]

lemma make_ok_forall₂ (f : GoFile) (e : Elf64Ehdr) (ws : List Elf64ShdrWithName)
    (h : (MakeSectionHeaderWithName f e).1 = Except.ok ws) :
    List.Forall₂ FieldsMatch ws (decodeSectionHeaders f e) := by
  simp only [MakeSectionHeaderWithName] at h
  by_cases hlt : e.Shstrndx < ((readShdrsLoop e.Shnum (goSeek f e.Shoff)).1).length
  · rw [dif_pos hlt] at h
    split at h
    · exact resolveLoop_ok _ _ _ h
    · exact absurd h (by simp)
  · rw [dif_neg hlt] at h
    exact absurd h (by simp)

/- Helper lemma: extracting an aligned field slice out of a 64-byte record
read from position p of the data. -/

lemma chunk64 (d : List Nat) (p o k : Nat) (h : o + k ≤ 64) :
    (((d.drop p).take 64).drop o).take k = (d.drop (p + o)).take k := by
  rw [List.drop_take, List.drop_drop, List.take_take]
  have h1 : min k (64 - o) = k := by omega
  rw [h1]


/- Claim C1. -/

/-- Claim C1, counterexample: with Shnum = 1 and Shstrndx = 1 the binding
fails by an index-out-of-range runtime panic at shdrs[ehdr.Shstrndx], which
is not the InvalidStringTableIndex error the claim names: main.go never
validates the index and has no error return at all on this path. -/
theorem cex_C1 :
    (MakeSectionHeaderWithName fileC1 ehdrC1).1 = Except.error ElfError.runtimePanic ∧
    (Except.error ElfError.runtimePanic :
        Except ElfError (List Elf64ShdrWithName)) ≠
      Except.error ElfError.invalidStringTableIndex := by
  refine ⟨rfl, ?_⟩
  intro h
  injection h with h2
  cases h2

/-- Claim C1, amended: for every byte source and file header whose
string-table index is not less than the section-header count, binding
section names fails — by an index-out-of-range runtime panic rather than an
InvalidStringTableIndex error — and produces no partial sequence of resolved
section headers. -/
theorem thm_C1 (f : GoFile) (e : Elf64Ehdr) (h : e.Shnum ≤ e.Shstrndx) :
    (MakeSectionHeaderWithName f e).1 = Except.error ElfError.runtimePanic :=
  make_panics_of_shstrndx_ge f e h

/-- Claim C1, witness: the amended theorem applied to the concrete header
with Shnum = 1 and Shstrndx = 1 over an empty source. -/
theorem wit_C1 :
    (MakeSectionHeaderWithName fileC1 ehdrC1).1 = Except.error ElfError.runtimePanic :=
  thm_C1 fileC1 ehdrC1 (by decide)

/- Claim C2. -/

/-- Claim C2, counterexample: for the empty table and index 1 — an index at
or beyond the table length — getString does not return the empty string: the
slice expression data[1:1] is out of bounds for a zero-length buffer and the
call panics. -/
theorem cex_C2 :
    getString [] 1 = Except.error ElfError.runtimePanic ∧
    getString [] 1 ≠ Except.ok [] := by
  refine ⟨rfl, ?_⟩
  intro h
  rw [show getString [] 1 = Except.error ElfError.runtimePanic from rfl] at h
  injection h

/-- Claim C2, amended: for every string table and uint32 index at or beyond
the table length, getString returns the empty string without failing when
the index equals the length, and panics with a slice-bounds violation when
the index is strictly beyond the length. -/
theorem thm_C2 (data : List Nat) (index : Nat) (h1 : index < 4294967296)
    (h2 : data.length ≤ index) :
    (index = data.length → getString data index = Except.ok []) ∧
    (data.length < index →
      getString data index = Except.error ElfError.runtimePanic) := by
  constructor
  · intro he
    subst he
    exact getString_at_length data
  · intro hlt
    exact getString_panic data index hlt

/-- Claim C2, witness: the amended theorem applied at index 0 of the empty
table (equal to the length) and at index 2 of a one-byte table (beyond the
length). -/
theorem wit_C2 :
    getString [] 0 = Except.ok [] ∧
    getString [0] 2 = Except.error ElfError.runtimePanic :=
  ⟨(thm_C2 [] 0 (by decide) (by decide)).1 rfl,
   (thm_C2 [0] 2 (by decide) (by decide)).2 (by decide)⟩

/- Claim C3. -/

/-- Claim C3, counterexample: over an empty source with Phoff = 0 and
Phnum = 1 — a source shorter than Phoff + Phnum * 56 — the decode does not
fail with TruncatedInput: the binary.Read error is ignored and one zero-filled
record is returned. -/
theorem cex_C3 :
    fileC3.data.length < ehdrC3.Phoff + ehdrC3.Phnum * 56 ∧
    JSONOutputProgramHeaders fileC3 ehdrC3 = [zeroPhdr] := by
  exact ⟨by decide, rfl⟩

/-- Claim C3, amended: for every byte source and header with a representable
offset, decoding the program headers never fails: it returns exactly
program_header_count records in table order, where each record whose 56
bytes lie fully inside the source is decoded from them, and every record
extending past the end of the source is returned zero-filled, the ignored
read errors notwithstanding; PrintProgramHeaders reads the same records. -/
theorem thm_C3 (f : GoFile) (e : Elf64Ehdr) (h : e.Phoff < 9223372036854775808) :
    (JSONOutputProgramHeaders f e).length = e.Phnum ∧
    PrintProgramHeaders f e = JSONOutputProgramHeaders f e ∧
    ∀ i, i < e.Phnum →
      (JSONOutputProgramHeaders f e)[i]? =
        some (if e.Phoff + (i + 1) * 56 ≤ f.data.length
              then decodePhdr ((f.data.drop (e.Phoff + i * 56)).take 56)
              else zeroPhdr) := by
  have hseek : goSeek f e.Phoff = ⟨f.data, e.Phoff⟩ := by
    simp [goSeek, h]
  refine ⟨?_, rfl, ?_⟩
  · simp [JSONOutputProgramHeaders, readPhdrsLoop_length]
  · intro i hi
    simp only [JSONOutputProgramHeaders, hseek]
    exact readPhdrsLoop_getElem e.Phnum f.data e.Phoff i hi

/-- Claim C3, witness: the amended theorem applied to the truncated concrete
source, giving exactly Phnum records. -/
theorem wit_C3 :
    (JSONOutputProgramHeaders fileC3 ehdrC3).length = ehdrC3.Phnum :=
  (thm_C3 fileC3 ehdrC3 (by decide)).1

/- Claim C4. -/

/-- Claim C4, counterexample: with Shnum = 0 the binding does not return an
empty sequence: shdrs[ehdr.Shstrndx] indexes the empty slice and panics. -/
theorem cex_C4 :
    ehdrC4.Shnum = 0 ∧
    (MakeSectionHeaderWithName fileC4 ehdrC4).1 = Except.error ElfError.runtimePanic ∧
    (Except.error ElfError.runtimePanic :
        Except ElfError (List Elf64ShdrWithName)) ≠ Except.ok [] := by
  refine ⟨rfl, rfl, ?_⟩
  intro h
  injection h

/-- Claim C4, amended: for every byte source and header with section-header
count zero, decoding section headers yields the empty sequence, but binding
names panics with an index out of range on the empty section list — while
evaluating the string-table section — instead of returning an empty
sequence. -/
theorem thm_C4 (f : GoFile) (e : Elf64Ehdr) (h : e.Shnum = 0) :
    decodeSectionHeaders f e = [] ∧
    (MakeSectionHeaderWithName f e).1 = Except.error ElfError.runtimePanic := by
  refine ⟨?_, make_panics_of_shstrndx_ge f e (by omega)⟩
  simp [decodeSectionHeaders, h, readShdrsLoop]

/-- Claim C4, witness: the amended theorem applied to the all-zero header
over an empty source. -/
theorem wit_C4 :
    decodeSectionHeaders fileC4 ehdrC4 = [] ∧
    (MakeSectionHeaderWithName fileC4 ehdrC4).1 = Except.error ElfError.runtimePanic :=
  thm_C4 fileC4 ehdrC4 rfl

/- Claim C5. -/

/-- Helper for claims C5 and C10: when the table length is a multiple of
2^32, the wrapped loop bound uint32(len(data)) is 0, the loop never runs,
and resolution at index 0 returns the empty string whatever the table
holds. -/
lemma getString_wrap_zero (data : List Nat) (h : data.length % 4294967296 = 0) :
    getString data 0 = Except.ok [] := by
  simp only [getString]
  rw [h]
  rw [if_neg (by omega : ¬ (0 : Nat) < 0)]
  rw [if_pos (⟨le_refl 0, Nat.zero_le _⟩ : (0 : Nat) ≤ 0 ∧ 0 ≤ data.length)]
  rfl

/-- Claim C5, counterexample: the scan-to-NUL contract fails for a table of
2^32 bytes.  The loop bound uint32(len(data)) wraps to 0, so on an all-ones
table of that length — which holds no NUL at all — the resolution returns
the empty string instead of running to the end of the table. -/
theorem cex_C5 :
    getString (List.replicate 4294967296 1) 0 = Except.ok [] ∧
    (∀ x ∈ List.replicate 4294967296 (1 : Nat), x ≠ 0) ∧
    ([] : List Nat) ≠ List.replicate 4294967296 1 := by
  refine ⟨getString_wrap_zero _ ?_, ?_, ?_⟩
  · rw [List.length_replicate]
  · intro x hx
    have hx1 := List.eq_of_mem_replicate hx
    omega
  · intro h
    have h0 := congrArg List.length h
    rw [List.length_nil, List.length_replicate] at h0
    exact absurd h0 (by omega)

/-- Claim C5, amended: for every string table shorter than 2^32 bytes and
every index up to the table length, getString scans forward from the index
until a NUL byte or the end of the table and returns the bytes in between;
in particular, when no NUL occurs before the end the result runs to the end
of the table, and on the table 97, 98, 0, 99, 100, 0 the indices 0, 3, 6
and 2 resolve to ab, cd, the empty string and the empty string. -/
theorem thm_C5 (data : List Nat) (index : Nat) (h1 : data.length < 4294967296)
    (h2 : index ≤ data.length) :
    getString data index =
      Except.ok ((data.drop index).takeWhile (fun b => b != 0)) ∧
    ((∀ x ∈ data.drop index, x ≠ 0) →
      getString data index = Except.ok (data.drop index)) ∧
    getString [97, 98, 0, 99, 100, 0] 0 = Except.ok [97, 98] ∧
    getString [97, 98, 0, 99, 100, 0] 3 = Except.ok [99, 100] ∧
    getString [97, 98, 0, 99, 100, 0] 6 = Except.ok [] ∧
    getString [97, 98, 0, 99, 100, 0] 2 = Except.ok [] := by
  refine ⟨getString_ok data index h1 h2, ?_, rfl, rfl, rfl, rfl⟩
  intro hnz
  rw [getString_ok data index h1 h2, takeWhile_nonzero_all _ hnz]

/-- Claim C5, witness: the amended theorem applied to the example table at
index 0. -/
theorem wit_C5 :
    getString [97, 98, 0, 99, 100, 0] 0 =
      Except.ok ((([97, 98, 0, 99, 100, 0] : List Nat).drop 0).takeWhile
        (fun b => b != 0)) :=
  (thm_C5 [97, 98, 0, 99, 100, 0] 0 (by decide) (by decide)).1

/- Claim C6. -/

/-- Claim C6 (confirmed): whenever binding names succeeds, the resolved
headers relate pointwise and in order to the raw decoded section headers:
the i-th resolved header agrees with the i-th raw header on the type, flags,
address, offset, size, link, info, alignment and entry-size fields, and the
two sequences have the same length. -/
theorem thm_C6 (f : GoFile) (e : Elf64Ehdr) (ws : List Elf64ShdrWithName)
    (h : (MakeSectionHeaderWithName f e).1 = Except.ok ws) :
    ws.length = (decodeSectionHeaders f e).length ∧
    List.Forall₂ FieldsMatch ws (decodeSectionHeaders f e) := by
  have h2 := make_ok_forall₂ f e ws h
  exact ⟨h2.length_eq, h2⟩

/-- Claim C6, witness: binding succeeds on the 64-byte all-zero source with
one section, and the theorem yields the pointwise field agreement there. -/
theorem wit_C6 :
    wsC6.length = (decodeSectionHeaders fileC6 ehdrC6).length ∧
    List.Forall₂ FieldsMatch wsC6 (decodeSectionHeaders fileC6 ehdrC6) :=
  thm_C6 fileC6 ehdrC6 wsC6 rfl

/- Claim C7. -/

/-- Helper for claim C7: the buffer dumpStringTable returns for a size below
2^63, by cases on whether size bytes are available at the offset. -/
lemma dumpStringTable_eq (f : GoFile) (offset size : Nat)
    (h : offset < 9223372036854775808) (hs : size < 9223372036854775808) :
    (dumpStringTable f offset size).1 =
      Except.ok (if size ≤ f.data.length - offset
                 then (f.data.drop offset).take size
                 else List.replicate size 0) := by
  have hseek : goSeek f offset = ⟨f.data, offset⟩ := by simp [goSeek, h]
  by_cases hc : size ≤ f.data.length - offset
  · rw [if_pos hc]
    simp only [dumpStringTable, hseek, readFull_fst]
    rw [if_pos hs, if_pos hc]
  · rw [if_neg hc]
    simp only [dumpStringTable, hseek, readFull_fst]
    rw [if_pos hs, if_neg hc]

/-- Helper for claim C7: for a size at or above 2^63 — not representable by
an int — dumpStringTable panics at make([]byte, size) and returns nothing. -/
lemma dumpStringTable_panic (f : GoFile) (offset size : Nat)
    (hs : 9223372036854775808 ≤ size) :
    (dumpStringTable f offset size).1 = Except.error ElfError.runtimePanic := by
  simp only [dumpStringTable]
  rw [if_neg (by omega)]

/-- Claim C7, counterexample: reading 1 byte at offset 0 of an empty source
does not fail with TruncatedInput: the read error is ignored and the
zero-filled 1-byte buffer is returned. -/
theorem cex_C7 :
    (dumpStringTable ⟨[], 0⟩ 0 1).1 = Except.ok [0] ∧
    (⟨[], 0⟩ : GoFile).data.length < 1 := by
  exact ⟨rfl, by decide⟩

/-- Claim C7, amended: for every byte source, representable offset and size,
loading the string table seeks to the offset and then: for a size below
2^63 it always returns a buffer of exactly size bytes — the bytes at the
offset when size bytes are available there, and an all-zero buffer
otherwise (the short read never fails with TruncatedInput) — while for a
size at or above 2^63 it panics at make([]byte, size), the size not being
representable by an int, and returns nothing. -/
theorem thm_C7 (f : GoFile) (offset size : Nat)
    (h : offset < 9223372036854775808) :
    (size < 9223372036854775808 →
      (dumpStringTable f offset size).1 =
        Except.ok (if size ≤ f.data.length - offset
                   then (f.data.drop offset).take size
                   else List.replicate size 0) ∧
      (if size ≤ f.data.length - offset
       then (f.data.drop offset).take size
       else List.replicate size 0).length = size) ∧
    (9223372036854775808 ≤ size →
      (dumpStringTable f offset size).1 = Except.error ElfError.runtimePanic) := by
  constructor
  · intro hs
    refine ⟨dumpStringTable_eq f offset size h hs, ?_⟩
    split
    next hc =>
      simp only [List.length_take, List.length_drop]
      omega
    next hc =>
      simp
  · intro hs
    exact dumpStringTable_panic f offset size hs

/-- Claim C7, witness: the amended theorem applied to a three-byte source at
offset 1 with size 2 — an ok buffer of exactly 2 bytes — and to size 2^63,
where the allocation panics. -/
theorem wit_C7 :
    (dumpStringTable ⟨[5, 6, 7], 0⟩ 1 2).1 =
      Except.ok (if 2 ≤ ([5, 6, 7] : List Nat).length - 1
                 then (([5, 6, 7] : List Nat).drop 1).take 2
                 else List.replicate 2 0) ∧
    (dumpStringTable ⟨[5, 6, 7], 0⟩ 1 9223372036854775808).1 =
      Except.error ElfError.runtimePanic :=
  ⟨((thm_C7 ⟨[5, 6, 7], 0⟩ 1 2 (by decide)).1 (by decide)).1,
   (thm_C7 ⟨[5, 6, 7], 0⟩ 1 9223372036854775808 (by decide)).2 (le_refl _)⟩

/- Claim C8. -/

/-- Claim C8 (confirmed): reading the file header reads exactly the fixed
64-byte header size from the current position of the source, interprets
every multi-byte field little-endian in the declared field order (the
16-byte ident block, then Type, Machine, Version, Entry, Phoff, Shoff,
Flags, Ehsize, Phentsize, Phnum, Shentsize, Shnum, Shstrndx of widths
2,2,4,8,8,8,4,2,2,2,2,2,2), advancing the position by exactly 64; when
fewer than 64 bytes are available it fails with the read error
(TruncatedInput), returning no header. -/
theorem thm_C8 (f : GoFile) :
    (f.data.length - f.pos < 64 →
      (ReadELFHeader f).1 = Except.error ElfError.truncatedInput) ∧
    (64 ≤ f.data.length - f.pos →
      (ReadELFHeader f).1 = Except.ok
        { Ident := (f.data.drop f.pos).take 16
          Type' := fromLEBytes ((f.data.drop (f.pos + 16)).take 2)
          Machine := fromLEBytes ((f.data.drop (f.pos + 18)).take 2)
          Version := fromLEBytes ((f.data.drop (f.pos + 20)).take 4)
          Entry := fromLEBytes ((f.data.drop (f.pos + 24)).take 8)
          Phoff := fromLEBytes ((f.data.drop (f.pos + 32)).take 8)
          Shoff := fromLEBytes ((f.data.drop (f.pos + 40)).take 8)
          Flags := fromLEBytes ((f.data.drop (f.pos + 48)).take 4)
          Ehsize := fromLEBytes ((f.data.drop (f.pos + 52)).take 2)
          Phentsize := fromLEBytes ((f.data.drop (f.pos + 54)).take 2)
          Phnum := fromLEBytes ((f.data.drop (f.pos + 56)).take 2)
          Shentsize := fromLEBytes ((f.data.drop (f.pos + 58)).take 2)
          Shnum := fromLEBytes ((f.data.drop (f.pos + 60)).take 2)
          Shstrndx := fromLEBytes ((f.data.drop (f.pos + 62)).take 2) } ∧
      (ReadELFHeader f).2.pos = f.pos + 64) := by
  constructor
  · intro h
    simp only [ReadELFHeader, readFull_fst]
    rw [if_neg (by omega)]
  · intro h
    refine ⟨?_, ?_⟩
    · simp only [ReadELFHeader, readFull_fst]
      rw [if_pos (by omega)]
      dsimp only
      simp only [decodeEhdr, Except.ok.injEq, Elf64Ehdr.mk.injEq]
      refine ⟨?_, ?_, ?_, ?_, ?_, ?_, ?_, ?_, ?_, ?_, ?_, ?_, ?_, ?_⟩
      · rw [List.take_take]
        norm_num
      · exact congrArg fromLEBytes (chunk64 f.data f.pos 16 2 (by norm_num))
      · exact congrArg fromLEBytes (chunk64 f.data f.pos 18 2 (by norm_num))
      · exact congrArg fromLEBytes (chunk64 f.data f.pos 20 4 (by norm_num))
      · exact congrArg fromLEBytes (chunk64 f.data f.pos 24 8 (by norm_num))
      · exact congrArg fromLEBytes (chunk64 f.data f.pos 32 8 (by norm_num))
      · exact congrArg fromLEBytes (chunk64 f.data f.pos 40 8 (by norm_num))
      · exact congrArg fromLEBytes (chunk64 f.data f.pos 48 4 (by norm_num))
      · exact congrArg fromLEBytes (chunk64 f.data f.pos 52 2 (by norm_num))
      · exact congrArg fromLEBytes (chunk64 f.data f.pos 54 2 (by norm_num))
      · exact congrArg fromLEBytes (chunk64 f.data f.pos 56 2 (by norm_num))
      · exact congrArg fromLEBytes (chunk64 f.data f.pos 58 2 (by norm_num))
      · exact congrArg fromLEBytes (chunk64 f.data f.pos 60 2 (by norm_num))
      · exact congrArg fromLEBytes (chunk64 f.data f.pos 62 2 (by norm_num))
    · simp only [ReadELFHeader, readFull_fst]
      rw [if_pos (by omega)]
      dsimp only
      simp only [readFull_snd]
      omega

/-- Claim C8, witness: the theorem applied to a 64-byte source holding the
bytes 0 to 63, where the read succeeds and yields the decoded header. -/
theorem wit_C8 :
    (ReadELFHeader fileC8).1 = Except.ok (decodeEhdr (fileC8.data.take 64)) := by
  have h := ((thm_C8 fileC8).2 (by decide)).1
  rw [h]
  rfl

/- Claim C9. -/

/-- Claim C9 (confirmed, against the spec-modelled encoder): decoding any
64-byte buffer as a file header and re-encoding the decoded record with the
same little-endian fixed layout reproduces the original bytes exactly. -/
theorem thm_C9 (b : List Nat) (h64 : b.length = 64) (hb : ∀ x ∈ b, x < 256) :
    encodeEhdr (decodeEhdr b) = b := by
  show b.take 16 ++ toLEBytes 2 (fromLEBytes ((b.drop 16).take 2)) ++
      toLEBytes 2 (fromLEBytes ((b.drop 18).take 2)) ++
      toLEBytes 4 (fromLEBytes ((b.drop 20).take 4)) ++
      toLEBytes 8 (fromLEBytes ((b.drop 24).take 8)) ++
      toLEBytes 8 (fromLEBytes ((b.drop 32).take 8)) ++
      toLEBytes 8 (fromLEBytes ((b.drop 40).take 8)) ++
      toLEBytes 4 (fromLEBytes ((b.drop 48).take 4)) ++
      toLEBytes 2 (fromLEBytes ((b.drop 52).take 2)) ++
      toLEBytes 2 (fromLEBytes ((b.drop 54).take 2)) ++
      toLEBytes 2 (fromLEBytes ((b.drop 56).take 2)) ++
      toLEBytes 2 (fromLEBytes ((b.drop 58).take 2)) ++
      toLEBytes 2 (fromLEBytes ((b.drop 60).take 2)) ++
      toLEBytes 2 (fromLEBytes ((b.drop 62).take 2)) = b
  rw [toLEBytes_chunk b 16 2 hb (by omega), toLEBytes_chunk b 18 2 hb (by omega),
      toLEBytes_chunk b 20 4 hb (by omega), toLEBytes_chunk b 24 8 hb (by omega),
      toLEBytes_chunk b 32 8 hb (by omega), toLEBytes_chunk b 40 8 hb (by omega),
      toLEBytes_chunk b 48 4 hb (by omega), toLEBytes_chunk b 52 2 hb (by omega),
      toLEBytes_chunk b 54 2 hb (by omega), toLEBytes_chunk b 56 2 hb (by omega),
      toLEBytes_chunk b 58 2 hb (by omega), toLEBytes_chunk b 60 2 hb (by omega),
      toLEBytes_chunk b 62 2 hb (by omega)]
  have h16 : (b.drop 16).take 2 ++ b.drop 18 = b.drop 16 := by
    have hs := List.drop_take_append_drop b 16 2
    norm_num at hs
    exact hs
  have h18 : (b.drop 18).take 2 ++ b.drop 20 = b.drop 18 := by
    have hs := List.drop_take_append_drop b 18 2
    norm_num at hs
    exact hs
  have h20 : (b.drop 20).take 4 ++ b.drop 24 = b.drop 20 := by
    have hs := List.drop_take_append_drop b 20 4
    norm_num at hs
    exact hs
  have h24 : (b.drop 24).take 8 ++ b.drop 32 = b.drop 24 := by
    have hs := List.drop_take_append_drop b 24 8
    norm_num at hs
    exact hs
  have h32 : (b.drop 32).take 8 ++ b.drop 40 = b.drop 32 := by
    have hs := List.drop_take_append_drop b 32 8
    norm_num at hs
    exact hs
  have h40 : (b.drop 40).take 8 ++ b.drop 48 = b.drop 40 := by
    have hs := List.drop_take_append_drop b 40 8
    norm_num at hs
    exact hs
  have h48 : (b.drop 48).take 4 ++ b.drop 52 = b.drop 48 := by
    have hs := List.drop_take_append_drop b 48 4
    norm_num at hs
    exact hs
  have h52 : (b.drop 52).take 2 ++ b.drop 54 = b.drop 52 := by
    have hs := List.drop_take_append_drop b 52 2
    norm_num at hs
    exact hs
  have h54 : (b.drop 54).take 2 ++ b.drop 56 = b.drop 54 := by
    have hs := List.drop_take_append_drop b 54 2
    norm_num at hs
    exact hs
  have h56 : (b.drop 56).take 2 ++ b.drop 58 = b.drop 56 := by
    have hs := List.drop_take_append_drop b 56 2
    norm_num at hs
    exact hs
  have h58 : (b.drop 58).take 2 ++ b.drop 60 = b.drop 58 := by
    have hs := List.drop_take_append_drop b 58 2
    norm_num at hs
    exact hs
  have h60 : (b.drop 60).take 2 ++ b.drop 62 = b.drop 60 := by
    have hs := List.drop_take_append_drop b 60 2
    norm_num at hs
    exact hs
  have hlast : (b.drop 62).take 2 = b.drop 62 := by
    have hl : (b.drop 62).length = 2 := by
      rw [List.length_drop, h64]
    rw [← hl, List.take_length]
  simp only [List.append_assoc]
  conv_rhs => rw [← List.take_append_drop 16 b]
  congr 1
  conv_rhs => rw [← h16]
  congr 1
  conv_rhs => rw [← h18]
  congr 1
  conv_rhs => rw [← h20]
  congr 1
  conv_rhs => rw [← h24]
  congr 1
  conv_rhs => rw [← h32]
  congr 1
  conv_rhs => rw [← h40]
  congr 1
  conv_rhs => rw [← h48]
  congr 1
  conv_rhs => rw [← h52]
  congr 1
  conv_rhs => rw [← h54]
  congr 1
  conv_rhs => rw [← h56]
  congr 1
  conv_rhs => rw [← h58]
  congr 1
  conv_rhs => rw [← h60]
  congr 1

/-- Claim C9, witness: the round-trip theorem applied to the all-zero
64-byte buffer. -/
theorem wit_C9 :
    encodeEhdr (decodeEhdr (List.replicate 64 0)) = List.replicate 64 0 :=
  thm_C9 (List.replicate 64 0) (by decide) (by decide)

/- Claim C10. -/

/-- Claim C10, counterexample: the longest-run characterisation fails for a
table of 2^32 bytes.  The loop bound uint32(len(data)) wraps to 0, so on an
all-ones table of that length the resolution at index 0 returns the empty
string even though the one-byte NUL-free run 1 starts there. -/
theorem cex_C10 :
    getString (List.replicate 4294967296 1) 0 = Except.ok [] ∧
    List.replicate 4294967296 (1 : Nat) = [1] ++ List.replicate 4294967295 1 ∧
    (∀ x ∈ ([1] : List Nat), x ≠ 0) ∧
    ¬ ([1] : List Nat).length ≤ ([] : List Nat).length := by
  refine ⟨getString_wrap_zero _ ?_, ?_, ?_, ?_⟩
  · rw [List.length_replicate]
  · rw [show (4294967296 : Nat) = 4294967295 + 1 by norm_num]
    rw [List.replicate_succ]
    rfl
  · intro x hx
    rw [List.mem_singleton] at hx
    omega
  · decide

/-- Claim C10, amended: for every byte table shorter than 2^32 bytes and
every index not exceeding the table length, getString returns a string that
contains no NUL byte and is exactly the longest NUL-free run of bytes in
the table starting at that index, so its length never exceeds the table
length minus the index. -/
theorem thm_C10 (data : List Nat) (index : Nat) (h1 : data.length < 4294967296)
    (h2 : index ≤ data.length) :
    ∃ r, getString data index = Except.ok r ∧
      (∀ x ∈ r, x ≠ 0) ∧
      (∃ t, data.drop index = r ++ t) ∧
      (∀ p t, data.drop index = p ++ t → (∀ x ∈ p, x ≠ 0) → p.length ≤ r.length) ∧
      r.length ≤ data.length - index := by
  refine ⟨(data.drop index).takeWhile (fun b => b != 0),
    getString_ok data index h1 h2, ?_, ?_, ?_, ?_⟩
  · intro x hx
    exact takeWhile_nonzero_mem _ x hx
  · exact ⟨(data.drop index).dropWhile (fun b => b != 0),
      (List.takeWhile_append_dropWhile _ _).symm⟩
  · intro p t hpt hp
    have hm := takeWhile_nonzero_maximal p t hp
    rw [← hpt] at hm
    exact hm
  · calc ((data.drop index).takeWhile (fun b => b != 0)).length
        ≤ (data.drop index).length := takeWhile_nonzero_length_le _
      _ = data.length - index := List.length_drop index data

/-- Claim C10, witness: the amended theorem applied to the table 97, 0 at
index 0. -/
theorem wit_C10 :
    ∃ r, getString [97, 0] 0 = Except.ok r ∧
      (∀ x ∈ r, x ≠ 0) ∧
      (∃ t, ([97, 0] : List Nat).drop 0 = r ++ t) ∧
      (∀ p t, ([97, 0] : List Nat).drop 0 = p ++ t →
        (∀ x ∈ p, x ≠ 0) → p.length ≤ r.length) ∧
      r.length ≤ ([97, 0] : List Nat).length - 0 :=
  thm_C10 [97, 0] 0 (by decide) (by decide)
